import Mathlib

/-!
Verification of the abbs-meta-collector pipeline against its
natural-language specification.  The Rust source is shallowly embedded:
paths are lists of components, a Git tree at a commit is a finite list of
blob paths with optional UTF-8 content (none models invalid UTF-8 bytes),
SQLite tables are lists of row structures, and the external APML parser
and the Package builder (external library contracts, deterministic and
free of IO per the spec) are taken as function parameters.
-/

namespace AbbsMeta

/-! ### Strings and substring search (str::find in get_package_changes) -/

/-- Embedding of Rust str::find for a literal pattern: the byte index of
the first occurrence of pat in hay, scanning left to right (here the
index counts characters, which does not affect presence). -/
def strFindAux (pat : List Char) : List Char → Nat → Option Nat
  | [], i => if pat.isEmpty then some i else none
  | c :: rest, i =>
    if pat.isPrefixOf (c :: rest) then some i else strFindAux pat rest (i + 1)

/-- Embedding of message.find(pattern) from get_package_changes. -/
def strFind (hay pat : String) : Option Nat :=
  strFindAux pat.data hay.data 0

/-- Embedding of the urgency computation in get_package_changes
(src/db/commits.rs lines 399-402):
message.find ("security") mapped to "high" when found, "medium" otherwise. -/
def urgency_of (message : String) : String :=
  match strFind message "security" with
  | some _ => "high"
  | none => "medium"

theorem strFindAux_isSome_iff (pat : List Char) :
    ∀ (hay : List Char) (i : Nat),
      (strFindAux pat hay i).isSome ↔ ∃ n, pat.isPrefixOf (hay.drop n)
  | [], i => by
    simp only [strFindAux]
    constructor
    · intro h
      refine ⟨0, ?_⟩
      simp only [List.drop_nil]
      by_cases hp : pat.isEmpty
      · simp [List.isPrefixOf_iff_prefix, List.isEmpty_iff.mp hp]
      · simp [hp] at h
    · rintro ⟨n, hn⟩
      simp only [List.drop_nil] at hn
      rw [List.isPrefixOf_iff_prefix, List.prefix_nil] at hn
      simp [hn]
  | c :: rest, i => by
    simp only [strFindAux]
    by_cases hp : pat.isPrefixOf (c :: rest)
    · simpa [hp] using ⟨0, by simpa using hp⟩
    · rw [if_neg hp, strFindAux_isSome_iff pat rest (i + 1)]
      constructor
      · rintro ⟨n, hn⟩
        exact ⟨n + 1, by simpa using hn⟩
      · rintro ⟨n, hn⟩
        match n with
        | 0 => exact absurd (by simpa using hn) hp
        | m + 1 => exact ⟨m, by simpa using hn⟩

theorem isInfix_iff_exists_drop {l₁ l₂ : List Char} :
    l₁ <:+: l₂ ↔ ∃ n, l₁ <+: l₂.drop n := by
  constructor
  · rintro ⟨s, t, rfl⟩
    refine ⟨s.length, t, ?_⟩
    rw [List.append_assoc, List.drop_left]
  · rintro ⟨n, t, ht⟩
    refine ⟨l₂.take n, t, ?_⟩
    rw [List.append_assoc, ht, List.take_append_drop]

/-- C8: For every commit message processed by get_package_changes, the
urgency is "high" iff the message contains the case-sensitive substring
"security", and "medium" otherwise. -/
theorem urgency_high_iff_security (msg : String) :
    (urgency_of msg = "high" ↔ "security".data <:+: msg.data) ∧
    (urgency_of msg = "medium" ↔ ¬ "security".data <:+: msg.data) := by
  have hiff : (strFind msg "security").isSome ↔ "security".data <:+: msg.data := by
    rw [strFind, strFindAux_isSome_iff, isInfix_iff_exists_drop]
    constructor
    · rintro ⟨n, hn⟩
      exact ⟨n, List.isPrefixOf_iff_prefix.mp hn⟩
    · rintro ⟨n, hn⟩
      exact ⟨n, List.isPrefixOf_iff_prefix.mpr hn⟩
  unfold urgency_of
  rcases h : strFind msg "security" with _ | i
  · simp only [h, Option.isSome_none, Bool.false_eq_true, false_iff] at hiff
    simp [hiff]
  · simp only [h, Option.isSome_some, true_iff] at hiff
    simp [hiff]

/-! ### Paths and Git tree snapshots (src/git/mod.rs, src/package.rs) -/

/-- A relative file path as its list of components, the shape exposed by
Rust Path components iteration. -/
abbrev GPath := List String

/-- Rendering of a path as Rust to_str yields it: components joined by
slashes (the empty path renders as the empty string). -/
def pathStr (p : GPath) : String := String.intercalate "/" p

/-- A Git tree at a fixed commit: the finite list of its blob paths with
their content.  A content of none models blob bytes that are not valid
UTF-8; directories are implicit as proper prefixes of blob paths. -/
structure GitTree where
  blobs : List (GPath × Option String)
deriving DecidableEq

/-- The path names a blob of the tree. -/
def GitTree.IsBlob (t : GitTree) (p : GPath) : Prop :=
  p ∈ t.blobs.map Prod.fst

instance (t : GitTree) (p : GPath) : Decidable (t.IsBlob p) := by
  unfold GitTree.IsBlob; infer_instance

/-- The path names a (sub)directory of the tree: a proper prefix of some
blob path. -/
def GitTree.IsDir (t : GitTree) (p : GPath) : Prop :=
  ∃ b ∈ t.blobs.map Prod.fst, p <+: b ∧ p ≠ b

instance (t : GitTree) (p : GPath) : Decidable (t.IsDir p) := by
  unfold GitTree.IsDir; infer_instance

/-- The nonempty path resolves through git2 get arbitrary path lookup: it
names either a blob or a directory of the tree.  The empty path never
resolves. -/
def GitTree.IsEntry (t : GitTree) (p : GPath) : Prop :=
  p ≠ [] ∧ (t.IsBlob p ∨ t.IsDir p)

instance (t : GitTree) (p : GPath) : Decidable (t.IsEntry p) := by
  unfold GitTree.IsEntry; infer_instance

/-- Embedding of Repository read_file (src/git/mod.rs): look the path up
in the commit tree, require a blob, decode UTF-8.  Returns none exactly
when the path is not a blob or its bytes are not valid UTF-8. -/
def GitTree.readFile (t : GitTree) (p : GPath) : Option String :=
  match t.blobs.find? (fun b => b.1 == p) with
  | some b => b.2
  | none => none

/-- All prefixes of a path, shortest to longest, including the empty path
and the path itself. -/
def prefixesOf (p : GPath) : List GPath :=
  (List.range (p.length + 1)).map (fun i => p.take i)

/-- Embedding of the git2 recursive tree walk rooted at a directory, as
used by spec_path_to_defines_path: the set of tree entries, blobs and
subdirectories alike, lying strictly below the given directory.  The
source collects them in walk order with names attached; only the
resulting set of paths is relevant downstream, so the embedding
enumerates them from the blob list and removes duplicates. -/
def GitTree.walkUnder (t : GitTree) (parent : GPath) : List GPath :=
  ((t.blobs.map Prod.fst).flatMap
    (fun b => (prefixesOf b).filter
      (fun q => decide (parent <+: q ∧ q ≠ parent)))).dedup

/-- Embedding of Rust path.iter().nth_back(n): the component n places
from the end. -/
def nthBack (p : GPath) (n : Nat) : Option String :=
  if n < p.length then p[p.length - 1 - n]? else none

/-- Embedding of Rust Path ancestors: the path, its parent, and so on up
to the empty path, longest first. -/
def ancestors (p : GPath) : List GPath :=
  (List.range (p.length + 1)).map (fun i => p.take (p.length - i))

/-- Embedding of spec_path_to_defines_path (src/package.rs lines
132-166): resolve the parent of the spec path to a subtree, walk it
recursively, and keep every entry whose final component is defines.
Returns none when the parent does not exist, is the tree root (git2
rejects the empty lookup path), or is not a directory. -/
def spec_path_to_defines_path (t : GitTree) (spec_path : GPath) : Option (List GPath) :=
  match spec_path with
  | [] => none
  | _ :: _ =>
    let pkg_path := spec_path.dropLast
    if pkg_path = [] then none
    else if t.IsDir pkg_path then
      some ((t.walkUnder pkg_path).filter (fun q => q.getLast? == some "defines"))
    else none

/-- Embedding of defines_path_to_spec_path (src/package.rs lines
168-187): the sibling spec file of the grandparent directory; fails when
the defines path has fewer than two components. -/
def defines_path_to_spec_path (defines_path : GPath) : Option GPath :=
  match defines_path with
  | _ :: _ :: _ => some (defines_path.dropLast.dropLast ++ ["spec"])
  | _ => none

/-- Embedding of path_to_defines_path (src/package.rs lines 189-215),
the path classifier: defines maps to itself, spec maps to the defines
entries below its parent, and any other path maps to the defines entry
beneath its first (longest) ancestor that has one. -/
def path_to_defines_path (t : GitTree) (p : GPath) : Option (List GPath) :=
  match p.getLast? with
  | none => none
  | some fname =>
    if fname = "defines" then some [p]
    else if fname = "spec" then spec_path_to_defines_path t p
    else
      (ancestors p).findSome?
        (fun a =>
          if t.IsEntry (a ++ ["defines"]) then some [a ++ ["defines"]] else none)

/-! ### The package parser (src/package.rs scan_package) -/

/-- A parse error of the external APML parser. -/
structure PErr where
  line : Nat
  col : Nat
  message : String
deriving DecidableEq

/-- The key/value context built by the parser, a hash map embedded as an
association list. -/
abbrev Ctx := List (String × String)

/-- The external APML parse function, an opaque deterministic collaborator
per the spec: it extends a mutable context and reports a list of errors
(an empty list standing for the Ok case). -/
abbrev ParseFn := String → Ctx → Ctx × List PErr

/-- Context lookup (HashMap get). -/
def ctxGet (c : Ctx) (k : String) : Option String :=
  (c.find? (fun kv => kv.1 == k)).map (·.2)

/-- Context removal (HashMap remove). -/
def ctxErase (c : Ctx) (k : String) : Ctx :=
  c.filter (fun kv => !(kv.1 == k))

/-- Context insertion (HashMap insert, replacing any previous binding). -/
def ctxInsert (c : Ctx) (k v : String) : Ctx :=
  (k, v) :: ctxErase c k

/-- Embedding of spec_decorator (src/package.rs lines 122-130): move VER
to PKGVER and REL to PKGREL when present. -/
def spec_decorator (c : Ctx) : Ctx :=
  let c1 :=
    match ctxGet c "VER" with
    | some ver => ctxInsert (ctxErase c "VER") "PKGVER" ver
    | none => c
  match ctxGet c1 "REL" with
  | some rel => ctxInsert (ctxErase c1 "REL") "PKGREL" rel
  | none => c1

/-- The persisted error kind (src/db/abbs.rs ErrorType). -/
inductive ErrorType
  | parse
  | package
deriving DecidableEq

/-- String form of ErrorType as persisted (src/db/abbs.rs to_string). -/
def ErrorType.str : ErrorType → String
  | .parse => "parse"
  | .package => "package"

/-- A structured package error (src/db/abbs.rs PackageError). -/
structure PackageError where
  package : String
  path : String
  message : String
  err_type : ErrorType
  line : Option Int
  col : Option Int
deriving DecidableEq

/-- A dependency table of the external Package record: architecture to
list of (dependency, relational operator, version). -/
abbrev PkgDep := List (String × List (String × Option String × Option String))

/-- The normalized package record produced by the external builder, with
exactly the fields the store consumes (src/db/abbs.rs add_package).  The
Rust field named section is spelled section_ because section is reserved
in Lean. -/
structure Package where
  name : String
  category : String
  section_ : String
  pkg_section : String
  directory : String
  description : String
  spec_path : String
  version : String
  release : Nat
  epoch : Nat
  dependencies : PkgDep
  build_dependencies : PkgDep
  package_suggests : PkgDep
  package_provides : PkgDep
  package_recommands : PkgDep
  package_replaces : PkgDep
  package_breaks : PkgDep
  package_configs : PkgDep
deriving DecidableEq

/-- The external Package builder, an opaque collaborator: a normalized
package from a context and a spec path, or an error message. -/
abbrev PkgFrom := Ctx → GPath → Except String Package

/-- Embedding of parse_spec_and_defines (src/package.rs lines 76-120):
read both blobs (none on any failure), parse spec into a fresh context,
decorate, parse defines, and collect the structured parse errors. -/
def parse_spec_and_defines (parseFn : ParseFn) (t : GitTree)
    (spec_path defines_path : GPath) : Option (Ctx × List PackageError) :=
  match t.readFile spec_path with
  | none => none
  | some spec =>
    match t.readFile defines_path with
    | none => none
    | some defines =>
      match nthBack defines_path 2 with
      | none => none
      | some pkg_name =>
        let r1 := parseFn spec []
        let errors1 := r1.2.map (fun e =>
          PackageError.mk pkg_name (pathStr spec_path) e.message .parse
            (some (e.line : Int)) (some (e.col : Int)))
        let ctx2 := spec_decorator r1.1
        let r2 := parseFn defines ctx2
        let errors2 := r2.2.map (fun e =>
          PackageError.mk pkg_name (pathStr defines_path) e.message .parse
            (some (e.line : Int)) (some (e.col : Int)))
        some (r2.1, errors1 ++ errors2)

/-- Embedding of scan_package (src/package.rs lines 34-74): parse the two
files, then run the builder; on builder failure append one package error
whose path is the grandparent directory of the defines path and whose
package name is its component two places before the last.  Any skipped
step yields no package and no errors. -/
def scan_package (parseFn : ParseFn) (pkgFrom : PkgFrom) (t : GitTree)
    (spec_path defines_path : GPath) :
    Option (Package × Ctx) × List PackageError :=
  match parse_spec_and_defines parseFn t spec_path defines_path with
  | none => (none, [])
  | some (context, errors) =>
    match pkgFrom context spec_path with
    | .ok pkg => (some (pkg, context), errors)
    | .error e =>
      match nthBack defines_path 2 with
      | none => (none, [])
      | some pkg_name =>
        match (ancestors defines_path)[2]? with
        | none => (none, [])
        | some anc =>
          (none, errors ++
            [PackageError.mk pkg_name (pathStr anc) e .package none none])

/-! ### Lemmas about ancestors, prefixes and findSome? -/

theorem length_ancestors (p : GPath) : (ancestors p).length = p.length + 1 := by
  simp [ancestors]

theorem ancestors_getElem? (p : GPath) (i : Nat) (h : i ≤ p.length) :
    (ancestors p)[i]? = some (p.take (p.length - i)) := by
  unfold ancestors
  rw [List.getElem?_map, List.getElem?_range (by omega)]
  rfl

theorem ancestors_get (p : GPath) (j : Nat) (hj : j < (ancestors p).length) :
    (ancestors p).get ⟨j, hj⟩ = p.take (p.length - j) := by
  simp [ancestors, List.get_eq_getElem, List.getElem_map, List.getElem_range]

theorem mem_ancestors_iff {p a : GPath} : a ∈ ancestors p ↔ a <+: p := by
  unfold ancestors
  simp only [List.mem_map, List.mem_range]
  constructor
  · rintro ⟨i, hi, rfl⟩
    exact List.take_prefix _ _
  · intro h
    have hlen : a.length ≤ p.length := h.length_le
    refine ⟨p.length - a.length, by omega, ?_⟩
    have hix : p.length - (p.length - a.length) = a.length := by omega
    rw [hix]
    exact (List.prefix_iff_eq_take.mp h).symm

theorem mem_prefixesOf {q b : GPath} : q ∈ prefixesOf b ↔ q <+: b := by
  unfold prefixesOf
  simp only [List.mem_map, List.mem_range]
  constructor
  · rintro ⟨i, hi, rfl⟩
    exact List.take_prefix _ _
  · intro h
    exact ⟨q.length, by have := h.length_le; omega,
      (List.prefix_iff_eq_take.mp h).symm⟩

theorem findSome?_first {α β : Type} (f : α → Option β) :
    ∀ (l : List α) (r : β), l.findSome? f = some r →
      ∃ i, ∃ h : i < l.length, f (l.get ⟨i, h⟩) = some r ∧
        ∀ j, ∀ hj : j < i, f (l.get ⟨j, Nat.lt_trans hj h⟩) = none
  | [], r => by
    intro h
    rw [List.findSome?_nil] at h
    cases h
  | c :: l, r => by
    intro h
    rw [List.findSome?_cons] at h
    revert h
    cases hf : f c <;> intro h
    · have h2 : List.findSome? f l = some r := h
      obtain ⟨i, hi, hfi, hmin⟩ := findSome?_first f l r h2
      refine ⟨i + 1, by simpa using Nat.succ_lt_succ hi, by simpa using hfi, ?_⟩
      intro j hj
      match j with
      | 0 => simpa using hf
      | k + 1 => simpa using hmin k (by omega)
    · have h2 : some _ = some r := h
      obtain rfl : _ = r := by injection h2
      exact ⟨0, by simp, by simpa using hf,
        fun j hj => absurd hj (Nat.not_lt_zero j)⟩

theorem findSome?_ancestors_first {α : Type} (f : GPath → Option α)
    (p : GPath) (r : α) (h : (ancestors p).findSome? f = some r) :
    ∃ a, a <+: p ∧ f a = some r ∧
      ∀ b, b <+: p → a.length < b.length → f b = none := by
  obtain ⟨i, hi, hfi, hmin⟩ := findSome?_first f (ancestors p) r h
  have hi2 : i ≤ p.length := by
    have := length_ancestors p
    omega
  rw [ancestors_get p i hi] at hfi
  refine ⟨p.take (p.length - i), List.take_prefix _ _, hfi, ?_⟩
  intro b hb hblen
  have hble : b.length ≤ p.length := hb.length_le
  have hlt : p.length - i < b.length := by
    have : (p.take (p.length - i)).length = p.length - i := by
      rw [List.length_take]
      omega
    omega
  have hj : p.length - b.length < i := by omega
  have hnone := hmin (p.length - b.length) hj
  rw [ancestors_get p (p.length - b.length) (Nat.lt_trans hj hi)] at hnone
  have hix : p.length - (p.length - b.length) = b.length := by omega
  rw [hix] at hnone
  rw [List.prefix_iff_eq_take.mp hb]
  exact hnone

/-! ### Concrete collaborators and snapshots used by witnesses -/

/-- A trivial instance of the external parse function: no assignments and
no errors. -/
def parseConst : ParseFn := fun _ c => (c, [])

/-- An instance of the external builder that always fails. -/
def pkgFromFail : PkgFrom := fun _ _ => .error "builder failed"

/-- A sample normalized package record. -/
def samplePackage : Package :=
  ⟨"jade", "extra", "doc", "doc", "jade", "desc", "extra-doc/jade/spec",
    "1.2", 0, 0, [], [], [], [], [], [], [], []⟩

/-- An instance of the external builder that always succeeds. -/
def pkgFromOk : PkgFrom := fun _ _ => .ok samplePackage

/-- A snapshot with the canonical abbs layout for one package. -/
def treeJade : GitTree :=
  ⟨[(["extra-doc", "jade", "spec"], some ""),
    (["extra-doc", "jade", "autobuild", "defines"], some "")]⟩

/-- The snapshot treeJade extended with one unrelated blob. -/
def treeJadeExt : GitTree :=
  ⟨[(["extra-doc", "jade", "spec"], some ""),
    (["extra-doc", "jade", "autobuild", "defines"], some ""),
    (["unrelated"], some "zzz")]⟩

/-- The empty snapshot. -/
def treeEmpty : GitTree := ⟨[]⟩

/-! ### Claims C6, C7, C9 about scan_package -/

/-- C6: For every commit and every pair (spec_path, defines_path) such
that reading either blob at that commit fails (file missing or content
not valid UTF-8), scan_package produces no package and an empty error
list. -/
theorem scan_package_unreadable_blob (parseFn : ParseFn) (pkgFrom : PkgFrom)
    (t : GitTree) (sp dp : GPath)
    (h : t.readFile sp = none ∨ t.readFile dp = none) :
    scan_package parseFn pkgFrom t sp dp = (none, []) := by
  unfold scan_package parse_spec_and_defines
  rcases h with h | h
  · rw [h]
  · cases hs : t.readFile sp
    · rfl
    · rw [h]

/-- Witness for C6 at a concrete empty snapshot. -/
theorem scan_package_unreadable_blob_witness :
    (treeEmpty.readFile ["a", "spec"] = none ∨
      treeEmpty.readFile ["a", "autobuild", "defines"] = none) ∧
    scan_package parseConst pkgFromFail treeEmpty
      ["a", "spec"] ["a", "autobuild", "defines"] = (none, []) :=
  ⟨Or.inl rfl,
    scan_package_unreadable_blob parseConst pkgFromFail treeEmpty
      ["a", "spec"] ["a", "autobuild", "defines"] (Or.inl rfl)⟩

/-- C7 counterexample: on a builder failure over the canonical layout
extra-doc/jade/autobuild/defines, the recorded package name is jade, the
component two places before the last (the package directory), while the
second-from-last component of the defines path is autobuild.  The claim
that the package name is the second-from-last segment is therefore false
at this input. -/
theorem scan_package_error_name_counterexample :
    (scan_package parseConst pkgFromFail treeJade
        ["extra-doc", "jade", "spec"]
        ["extra-doc", "jade", "autobuild", "defines"]).2.map
        (fun e => e.package) = ["jade"] ∧
    nthBack ["extra-doc", "jade", "autobuild", "defines"] 1 = some "autobuild" ∧
    ("jade" : String) ≠ "autobuild" :=
  ⟨rfl, rfl, by decide⟩

/-- C7 (amended): for every input on which the builder fails, provided
the defines path has at least three components, scan_package returns no
package and appends exactly one PackageError with err_type package, the
builder message, path the grandparent directory of the defines path, and
package name the third-from-last component of the defines path. -/
theorem scan_package_builder_error (parseFn : ParseFn) (pkgFrom : PkgFrom)
    (t : GitTree) (sp dp : GPath) (ctx : Ctx) (errs : List PackageError)
    (e : String)
    (hlen : 3 ≤ dp.length)
    (hparse : parse_spec_and_defines parseFn t sp dp = some (ctx, errs))
    (hfail : pkgFrom ctx sp = Except.error e) :
    scan_package parseFn pkgFrom t sp dp =
      (none, errs ++
        [PackageError.mk (dp.get ⟨dp.length - 3, by omega⟩)
          (pathStr (dp.take (dp.length - 2))) e .package none none]) := by
  have h2 : nthBack dp 2 = some (dp.get ⟨dp.length - 3, by omega⟩) := by
    unfold nthBack
    rw [if_pos (by omega)]
    have hix : dp.length - 1 - 2 = dp.length - 3 := by omega
    rw [hix, List.getElem?_eq_getElem (by omega), List.get_eq_getElem]
  have h3 : (ancestors dp)[2]? = some (dp.take (dp.length - 2)) := by
    rw [ancestors_getElem? dp 2 (by omega)]
  unfold scan_package
  simp only [hparse, hfail, h2, h3]

/-- Witness for the amended C7 at the canonical layout. -/
theorem scan_package_builder_error_witness :
    3 ≤ (["extra-doc", "jade", "autobuild", "defines"] : GPath).length ∧
    parse_spec_and_defines parseConst treeJade ["extra-doc", "jade", "spec"]
      ["extra-doc", "jade", "autobuild", "defines"] = some ([], []) ∧
    scan_package parseConst pkgFromFail treeJade
      ["extra-doc", "jade", "spec"]
      ["extra-doc", "jade", "autobuild", "defines"] =
      (none, [PackageError.mk "jade" "extra-doc/jade" "builder failed"
        .package none none]) :=
  ⟨by decide, rfl,
    scan_package_builder_error parseConst pkgFromFail treeJade
      ["extra-doc", "jade", "spec"]
      ["extra-doc", "jade", "autobuild", "defines"] [] [] "builder failed"
      (by decide) rfl rfl⟩

/-- C9: scan_package is a pure function of the snapshot restricted to the
two file paths it reads: two snapshots agreeing on the spec blob and the
defines blob produce identical results, for any parse function and
builder.  In particular two runs on one snapshot coincide, and the
function neither takes nor returns any mutable repository or database
state. -/
theorem scan_package_depends_only_on_read_files (parseFn : ParseFn)
    (pkgFrom : PkgFrom) (t₁ t₂ : GitTree) (sp dp : GPath)
    (hs : t₁.readFile sp = t₂.readFile sp)
    (hd : t₁.readFile dp = t₂.readFile dp) :
    scan_package parseFn pkgFrom t₁ sp dp =
      scan_package parseFn pkgFrom t₂ sp dp := by
  unfold scan_package parse_spec_and_defines
  rw [hs, hd]

/-- Witness for C9: two distinct snapshots agreeing on the two read
files classify identically. -/
theorem scan_package_depends_only_on_read_files_witness :
    treeJade.readFile ["extra-doc", "jade", "spec"] =
      treeJadeExt.readFile ["extra-doc", "jade", "spec"] ∧
    treeJade.readFile ["extra-doc", "jade", "autobuild", "defines"] =
      treeJadeExt.readFile ["extra-doc", "jade", "autobuild", "defines"] ∧
    scan_package parseConst pkgFromOk treeJade
      ["extra-doc", "jade", "spec"] ["extra-doc", "jade", "autobuild", "defines"] =
    scan_package parseConst pkgFromOk treeJadeExt
      ["extra-doc", "jade", "spec"] ["extra-doc", "jade", "autobuild", "defines"] :=
  ⟨rfl, rfl,
    scan_package_depends_only_on_read_files parseConst pkgFromOk
      treeJade treeJadeExt ["extra-doc", "jade", "spec"]
      ["extra-doc", "jade", "autobuild", "defines"] rfl rfl⟩

/-! ### Claim C4 about the path classifier -/

theorem mem_walkUnder {t : GitTree} {parent q : GPath} :
    q ∈ t.walkUnder parent ↔
      ((∃ b ∈ t.blobs.map Prod.fst, q <+: b) ∧ parent <+: q ∧ q ≠ parent) := by
  unfold GitTree.walkUnder
  rw [List.mem_dedup, List.mem_flatMap]
  constructor
  · rintro ⟨b, hb, hq⟩
    rw [List.mem_filter] at hq
    obtain ⟨hqb, hcond⟩ := hq
    rw [mem_prefixesOf] at hqb
    have hc := of_decide_eq_true hcond
    exact ⟨⟨b, hb, hqb⟩, hc.1, hc.2⟩
  · rintro ⟨⟨b, hb, hqb⟩, hpre, hne⟩
    exact ⟨b, hb, List.mem_filter.mpr ⟨mem_prefixesOf.mpr hqb,
      decide_eq_true ⟨hpre, hne⟩⟩⟩

theorem exists_blob_extension_iff {t : GitTree} {q : GPath} :
    (∃ b ∈ t.blobs.map Prod.fst, q <+: b) ↔ (t.IsBlob q ∨ t.IsDir q) := by
  constructor
  · rintro ⟨b, hb, hqb⟩
    by_cases heq : q = b
    · subst heq
      exact Or.inl hb
    · exact Or.inr ⟨b, hb, hqb, heq⟩
  · rintro (h | ⟨b, hb, hqb, _⟩)
    · exact ⟨q, h, List.prefix_refl _⟩
    · exact ⟨b, hb, hqb⟩

/-- Formalisation of the C4 claim wording for the spec rule alone: the
descendant defines files, that is blobs, lying below the given parent
directory. -/
def definesBlobsUnder (t : GitTree) (parent : GPath) : List GPath :=
  (t.blobs.map Prod.fst).filter
    (fun b => decide (parent <+: b ∧ b ≠ parent ∧ b.getLast? = some "defines"))

/-- A snapshot containing a directory named defines. -/
def treeDirDefines : GitTree :=
  ⟨[(["pkg", "spec"], some ""), (["pkg", "defines", "inner"], some "")]⟩

/-- C4 counterexample: when a directory named defines lies below the
parent of a changed spec file, the classifier returns that directory
path, although the set of descendant defines files below the parent is
empty and the returned path is not a file of the commit tree.  The claim
that the spec rule returns exactly the descendant defines files is
therefore false at this input. -/
theorem path_classifier_spec_rule_counterexample :
    path_to_defines_path treeDirDefines ["pkg", "spec"]
      = some [["pkg", "defines"]] ∧
    definesBlobsUnder treeDirDefines ["pkg"] = [] ∧
    ¬ treeDirDefines.IsBlob ["pkg", "defines"] :=
  ⟨rfl, rfl, by decide⟩

/-- C4 (amended): classification of a changed path.  A path whose final
component is defines classifies to itself.  A path whose final component
is spec classifies to every tree entry, file or directory alike, lying
below its parent whose final component is defines, and fails when the
parent is the repository root or is not a directory of the commit tree.
Any other path classifies to ancestor/defines for its longest ancestor
(the path itself included) for which that is a tree entry, and to
nothing when there is none. -/
theorem path_to_defines_path_characterization (t : GitTree) (p : GPath) :
    (p.getLast? = some "defines" → path_to_defines_path t p = some [p]) ∧
    (p.getLast? = some "spec" →
      ((p.dropLast = [] ∨ ¬ t.IsDir p.dropLast) →
          path_to_defines_path t p = none) ∧
      (∀ l, path_to_defines_path t p = some l → ∀ q,
        q ∈ l ↔ (p.dropLast <+: q ∧ q ≠ p.dropLast ∧ t.IsEntry q ∧
          q.getLast? = some "defines"))) ∧
    (∀ fname, p.getLast? = some fname → fname ≠ "defines" → fname ≠ "spec" →
      ((path_to_defines_path t p = none ↔
          ∀ a, a <+: p → ¬ t.IsEntry (a ++ ["defines"])) ∧
       (∀ l, path_to_defines_path t p = some l →
          ∃ a, a <+: p ∧ t.IsEntry (a ++ ["defines"]) ∧
            l = [a ++ ["defines"]] ∧
            ∀ b, b <+: p → a.length < b.length →
              ¬ t.IsEntry (b ++ ["defines"])))) := by
  refine ⟨?_, ?_, ?_⟩
  · intro hlast
    simp [path_to_defines_path, hlast]
  · intro hlast
    have heq : path_to_defines_path t p = spec_path_to_defines_path t p := by
      simp [path_to_defines_path, hlast]
    obtain ⟨x, xs, rfl⟩ : ∃ x xs, p = x :: xs := by
      cases p with
      | nil => simp at hlast
      | cons x xs => exact ⟨x, xs, rfl⟩
    constructor
    · intro hbad
      rw [heq]
      unfold spec_path_to_defines_path
      dsimp only
      rcases hbad with hroot | hnd
      · rw [if_pos hroot]
      · by_cases hroot : (x :: xs).dropLast = []
        · rw [if_pos hroot]
        · rw [if_neg hroot, if_neg hnd]
    · intro l hl q
      rw [heq] at hl
      unfold spec_path_to_defines_path at hl
      dsimp only at hl
      by_cases hroot : (x :: xs).dropLast = []
      · rw [if_pos hroot] at hl
        cases hl
      · rw [if_neg hroot] at hl
        by_cases hdir : t.IsDir (x :: xs).dropLast
        · rw [if_pos hdir] at hl
          injection hl with hl
          subst hl
          rw [List.mem_filter, mem_walkUnder]
          constructor
          · rintro ⟨⟨hex, hpre, hne⟩, hbeq⟩
            have hqne : q ≠ [] := by
              rintro rfl
              rw [List.prefix_nil] at hpre
              exact hne hpre.symm
            exact ⟨hpre, hne, ⟨hqne, exists_blob_extension_iff.mp hex⟩,
              by simpa using hbeq⟩
          · rintro ⟨hpre, hne, ⟨_, hbd⟩, hlast2⟩
            exact ⟨⟨exists_blob_extension_iff.mpr hbd, hpre, hne⟩,
              by simpa using hlast2⟩
        · rw [if_neg hdir] at hl
          cases hl
  · intro fname hlast hnd hns
    have heq : path_to_defines_path t p = (ancestors p).findSome?
        (fun a => if t.IsEntry (a ++ ["defines"])
          then some [a ++ ["defines"]] else none) := by
      simp [path_to_defines_path, hlast, hnd, hns]
    have hf : ∀ a : GPath,
        (if t.IsEntry (a ++ ["defines"])
          then some [a ++ ["defines"]] else (none : Option (List GPath))) = none
          ↔ ¬ t.IsEntry (a ++ ["defines"]) := by
      intro a
      by_cases hc : t.IsEntry (a ++ ["defines"]) <;> simp [hc]
    constructor
    · rw [heq, List.findSome?_eq_none_iff]
      constructor
      · intro H a ha
        exact (hf a).mp (H a (mem_ancestors_iff.mpr ha))
      · intro H a ha
        exact (hf a).mpr (H a (mem_ancestors_iff.mp ha))
    · intro l hl
      rw [heq] at hl
      obtain ⟨a, hap, haf, hmin⟩ := findSome?_ancestors_first _ p l hl
      by_cases hc : t.IsEntry (a ++ ["defines"])
      · rw [if_pos hc] at haf
        injection haf with haf
        exact ⟨a, hap, hc, haf.symm, fun b hb hblen =>
          (hf b).mp (hmin b hb hblen)⟩
      · rw [if_neg hc] at haf
        cases haf

/-- Witness for the amended C4 at a concrete snapshot: the fallback rule
applied to a path below the pkg directory finds pkg/defines as the entry
beneath the longest ancestor carrying one. -/
theorem path_to_defines_path_characterization_witness :
    ∃ a, a <+: (["pkg", "other", "file"] : GPath) ∧
      treeDirDefines.IsEntry (a ++ ["defines"]) ∧
      [["pkg", "defines"]] = [a ++ ["defines"]] ∧
      ∀ b, b <+: (["pkg", "other", "file"] : GPath) → a.length < b.length →
        ¬ treeDirDefines.IsEntry (b ++ ["defines"]) :=
  ((path_to_defines_path_characterization treeDirDefines
      ["pkg", "other", "file"]).2.2 "file" rfl (by decide) (by decide)).2
    [["pkg", "defines"]] rfl

/-! ### The package metadata store (src/db/abbs.rs)

SQLite tables are embedded as lists of row structures.  The replace
helpers of src/db/mod.rs (INSERT ON CONFLICT pk UPDATE) become an upsert
parameterized by the conflict test of the primary key; insert-or-ignore
becomes a guarded append.  Primary keys come from the entity modules
where present under src (fts_packages, commits) and from the data model
of the specification for the entity files absent from the dump. -/

/-- Generic single row upsert: on a primary key conflict the existing
row is updated, otherwise the row is inserted. -/
def upsertBy {α : Type} (conflict : α → α → Bool) (tbl : List α) (r : α) :
    List α :=
  r :: tbl.filter (fun x => !(conflict x r))

/-- Generic multi-row upsert, one row at a time in order, as a multi-row
INSERT ON CONFLICT UPDATE statement behaves. -/
def upsertManyBy {α : Type} (conflict : α → α → Bool) (tbl : List α)
    (rows : List α) : List α :=
  rows.foldl (upsertBy conflict) tbl

/-- Generic insert-or-ignore: append unless a conflicting row exists. -/
def insertIgnoreBy {α : Type} (conflict : α → α → Bool) (tbl : List α)
    (r : α) : List α :=
  if tbl.any (fun x => conflict x r) then tbl else tbl ++ [r]

/-- A row of packages; primary key name. -/
structure PackagesRow where
  name : String
  tree : String
  category : String
  section_ : String
  pkg_section : String
  directory : String
  description : String
  spec_path : String
deriving DecidableEq

/-- A row of fts_packages (entity under src); primary key name. -/
structure FtsRow where
  name : String
  description : String
deriving DecidableEq

/-- A change of a package as assembled by get_package_changes and
consumed by add_package (src/db/commits.rs Change, plus the tree field
that add_package reads from it). -/
structure Change where
  pkg_name : String
  version : String
  branch : String
  urgency : String
  message : String
  githash : String
  maintainer_name : String
  maintainer_email : String
  timestamp : Int
  tree : String
deriving DecidableEq

/-- A row of package_changes.  Modelled from the spec: the entity file is
absent from the dump; one row per change with the listed columns, keyed
here by (package, githash). -/
structure PackageChangeRow where
  package : String
  githash : String
  version : String
  branch : String
  urgency : String
  message : String
  maintainer_name : String
  maintainer_email : String
  timestamp : Int
  tree : String
deriving DecidableEq

/-- A row of package_versions; primary key (package, branch,
architecture) per the data model. -/
structure PackageVersionRow where
  package : String
  branch : String
  architecture : String
  version : String
  release : Option String
  epoch : Option String
  commit_time : Int
  committer : String
  githash : String
deriving DecidableEq

/-- A row of package_spec; primary key (package, key) per the data
model. -/
structure PackageSpecRow where
  package : String
  key : String
  value : String
deriving DecidableEq

/-- A row of package_dependencies; primary key (package, dependency,
architecture, relationship) per the data model. -/
structure PackageDependencyRow where
  package : String
  dependency : String
  relop : Option String
  version : Option String
  architecture : String
  relationship : String
deriving DecidableEq

/-- A row of package_errors with its auto-increment integer key (the id
column set NotSet by add_package). -/
structure PackageErrorRow where
  id : Nat
  package : String
  path : String
  message : String
  err_type : String
  tree : String
  branch : String
  line : Option Int
  col : Option Int
deriving DecidableEq

/-- A row of package_duplicate, keyed by all its columns. -/
structure PackageDuplicateRow where
  package : String
  tree : String
  category : String
  section_ : String
  directory : String
deriving DecidableEq

/-- A row of package_testing; primary key (package, tree, branch), the
triple used by delete_by_id in update_testing_branch. -/
structure PackageTestingRow where
  package : String
  tree : String
  branch : String
  version : String
  spec_path : String
  defines_path : String
  commit : String
deriving DecidableEq

/-- The state of the package metadata database. -/
structure AbbsDb where
  packages : List PackagesRow
  fts_packages : List FtsRow
  package_changes : List PackageChangeRow
  package_versions : List PackageVersionRow
  package_spec : List PackageSpecRow
  package_dependencies : List PackageDependencyRow
  package_errors : List PackageErrorRow
  package_duplicate : List PackageDuplicateRow
  package_testing : List PackageTestingRow
deriving DecidableEq

/-- The empty database. -/
def emptyDb : AbbsDb := ⟨[], [], [], [], [], [], [], [], []⟩

/-- Conflict test of the packages primary key. -/
def packagesConflict (a b : PackagesRow) : Bool := a.name == b.name

/-- Conflict test of the package_spec primary key. -/
def specConflict (a b : PackageSpecRow) : Bool :=
  a.package == b.package && a.key == b.key

/-- Conflict test of the package_changes key. -/
def changeConflict (a b : PackageChangeRow) : Bool :=
  a.package == b.package && a.githash == b.githash

/-- Conflict test of the package_versions primary key. -/
def versionConflict (a b : PackageVersionRow) : Bool :=
  a.package == b.package && a.branch == b.branch &&
    a.architecture == b.architecture

/-- Conflict test of the package_dependencies primary key. -/
def depConflict (a b : PackageDependencyRow) : Bool :=
  a.package == b.package && a.dependency == b.dependency &&
    a.architecture == b.architecture && a.relationship == b.relationship

/-- Conflict test of the fts_packages primary key. -/
def ftsConflict (a b : FtsRow) : Bool := a.name == b.name

/-- Conflict test of the package_testing primary key. -/
def testingConflict (a b : PackageTestingRow) : Bool :=
  a.package == b.package && a.tree == b.tree && a.branch == b.branch

/-- The largest id present in the package_errors table. -/
def maxErrId (tbl : List PackageErrorRow) : Nat :=
  tbl.foldr (fun r m => max r.id m) 0

/-- Insertion of one package error with a fresh auto-increment id: the
NotSet id never conflicts, so this is a plain append. -/
def insertErrorRow (tree branch : String) (tbl : List PackageErrorRow)
    (e : PackageError) : List PackageErrorRow :=
  tbl ++ [⟨maxErrId tbl + 1, e.package, e.path, e.message, e.err_type.str,
    tree, branch, e.line, e.col⟩]

/-- Insertion of the supplied errors, in order, each with a fresh id. -/
def insertErrorRows (tbl : List PackageErrorRow) (es : List PackageError)
    (tree branch : String) : List PackageErrorRow :=
  es.foldl (insertErrorRow tree branch) tbl

/-- Embedding of update_duplicate (src/db/abbs.rs lines 496-523): record
both locations of a duplicated package name, ignoring existing rows. -/
def updateDuplicate (tbl : List PackageDuplicateRow) (pkg : Package)
    (ex : PackagesRow) (tree : String) : List PackageDuplicateRow :=
  insertIgnoreBy (fun a b => a == b)
    (insertIgnoreBy (fun a b => a == b) tbl
      ⟨pkg.name, tree, pkg.category, pkg.section_, pkg.directory⟩)
    ⟨pkg.name, ex.tree, ex.category, ex.section_, ex.directory⟩

/-- The duplicate handling of add_package (src/db/abbs.rs lines
172-198): when a package row of the same name exists in another tree, or
at another (category, section, directory) location, record both
locations. -/
def dupUpdate (tbl : List PackageDuplicateRow) (pkg : Package)
    (existing : Option PackagesRow) (tree : String) :
    List PackageDuplicateRow :=
  match existing with
  | none => tbl
  | some ex =>
    let t1 := if ex.tree ≠ tree then updateDuplicate tbl pkg ex tree else tbl
    if (pkg.category, pkg.section_, pkg.directory) ≠
        (ex.category, ex.section_, ex.directory)
      then updateDuplicate t1 pkg ex tree else t1

/-- The full-text index maintenance of add_package (src/db/abbs.rs lines
213-230): delete then reinsert when the description changed, insert when
missing, otherwise leave alone. -/
def ftsUpdate (tbl : List FtsRow) (pkg : Package) : List FtsRow :=
  match tbl.find? (fun r => r.name == pkg.name) with
  | some res =>
    if res.description ≠ pkg.description then
      upsertBy ftsConflict (tbl.filter (fun r => !(r.name == res.name)))
        ⟨pkg.name, pkg.description⟩
    else tbl
  | none => upsertBy ftsConflict tbl ⟨pkg.name, pkg.description⟩

/-- The package_changes row of a change. -/
def changeRowOf (c : Change) : PackageChangeRow :=
  ⟨c.pkg_name, c.githash, c.version, c.branch, c.urgency, c.message,
    c.maintainer_name, c.maintainer_email, c.timestamp, c.tree⟩

/-- Embedding of add_dependencies (src/db/abbs.rs lines 526-551) as the
rows it upserts: one row per dependency of each architecture, the
architecture default stored as the empty string. -/
def depRowsOf (pkgdep : PkgDep) (relationship pkg_name : String) :
    List PackageDependencyRow :=
  pkgdep.flatMap (fun av =>
    let architecture := if av.1 == "default" then "" else av.1
    av.2.map (fun dv =>
      ⟨pkg_name, dv.1, dv.2.1, dv.2.2, architecture, relationship⟩))

/-- Embedding of add_package (src/db/abbs.rs lines 162-317).  The
transaction opened at entry is rolled back, leaving the database
untouched, when the change list is empty; otherwise every step updates
its table and the final state is committed.  The per-table updates of
the source act on disjoint tables in sequence inside one transaction, so
the committed state is assembled as one record. -/
def add_package (db : AbbsDb) (tree branch : String)
    (pkg_meta : Package × Ctx × List PackageError)
    (pkg_changes : List Change) : Except String AbbsDb :=
  match pkg_changes with
  | [] => .error "cannot find changes of package, please update commit database"
  | first :: _ =>
    let pkg := pkg_meta.1
    let context := pkg_meta.2.1
    let errors := pkg_meta.2.2
    let existing := db.packages.find? (fun x => x.name == pkg.name)
    .ok
      { packages := upsertBy packagesConflict db.packages
          ⟨pkg.name, tree, pkg.category, pkg.section_, pkg.pkg_section,
            pkg.directory, pkg.description, pkg.spec_path⟩
        fts_packages := ftsUpdate db.fts_packages pkg
        package_changes := upsertManyBy changeConflict db.package_changes
          (pkg_changes.map changeRowOf)
        package_versions := upsertBy versionConflict db.package_versions
          ⟨pkg.name, branch, "", pkg.version,
            if pkg.release ≠ 0 then some (toString pkg.release) else none,
            if pkg.epoch ≠ 0 then some (toString pkg.epoch) else none,
            first.timestamp,
            first.maintainer_name ++ " <" ++ first.maintainer_email ++ ">",
            first.githash⟩
        package_spec := upsertManyBy specConflict
          (db.package_spec.filter (fun r => !(r.package == pkg.name)))
          (context.map (fun kv => ⟨pkg.name, kv.1, kv.2⟩))
        package_dependencies := upsertManyBy depConflict
          (db.package_dependencies.filter (fun r => !(r.package == pkg.name)))
          (depRowsOf pkg.dependencies "PKGDEP" pkg.name ++
            depRowsOf pkg.build_dependencies "BUILDDEP" pkg.name ++
            depRowsOf pkg.package_suggests "PKGSUG" pkg.name ++
            depRowsOf pkg.package_provides "PKGPROV" pkg.name ++
            depRowsOf pkg.package_recommands "PKGRECOM" pkg.name ++
            depRowsOf pkg.package_replaces "PKGREP" pkg.name ++
            depRowsOf pkg.package_breaks "PKGBREAK" pkg.name ++
            depRowsOf pkg.package_configs "PKGCONFIG" pkg.name)
        package_errors :=
          if errors.isEmpty then db.package_errors
          else insertErrorRows db.package_errors errors tree branch
        package_duplicate := dupUpdate db.package_duplicate pkg existing tree
        package_testing := db.package_testing }

/-- The database a caller observes after running add_package: the
committed state on success, the rolled back original on failure. -/
def add_package_run (db : AbbsDb) (tree branch : String)
    (pkg_meta : Package × Ctx × List PackageError)
    (pkg_changes : List Change) : AbbsDb :=
  match add_package db tree branch pkg_meta pkg_changes with
  | .ok d => d
  | .error _ => db

/-! ### The commit index history window (src/db/commits.rs) -/

/-- A row of the histories table, with its auto-increment id, as written
by insert_history. -/
structure HistoryRow where
  id : Nat
  tree : String
  branch : String
  commit_id : String
  timestamp : Int
deriving DecidableEq

/-- Stable insertion into a list ordered by ascending timestamp. -/
def insertAscByTimestamp (r : HistoryRow) :
    List HistoryRow → List HistoryRow
  | [] => [r]
  | x :: xs =>
    if r.timestamp < x.timestamp then r :: x :: xs
    else x :: insertAscByTimestamp r xs

/-- ORDER BY timestamp ascending. -/
def sortByTimestampAsc (l : List HistoryRow) : List HistoryRow :=
  l.foldr insertAscByTimestamp []

/-- Embedding of get_branch_histories (src/db/commits.rs lines 250-257):
the History rows of (tree, branch), ordered by timestamp ascending. -/
def get_branch_histories (histories : List HistoryRow)
    (tree branch : String) : List HistoryRow :=
  sortByTimestampAsc
    (histories.filter (fun r => r.tree == tree && r.branch == branch))

/-- Embedding of the (from, to) window selection of get_updated_packages
(src/db/commits.rs lines 313-324): fail when no history row exists,
otherwise take rows 0 and 1 of the ascending list as (to, from). -/
def updated_packages_window (histories : List HistoryRow)
    (tree branch : String) : Except String (Option String × String) :=
  match get_branch_histories histories tree branch with
  | [] => .error ("please update branch " ++ branch)
  | [h0] => .ok (none, h0.commit_id)
  | h0 :: h1 :: _ => .ok (some h1.commit_id, h0.commit_id)

/-! ### The testing view decision (src/db/abbs.rs update_testing_branch) -/

/-- Commit info of a testing branch package as produced by the commit
index (src/db/commits.rs CommitInfo, the commit id as its string). -/
structure TestingCommitInfo where
  commit_id : String
  commit_time : Int
  pkg_name : String
  pkg_version : String
  defines_path : String
  spec_path : String
deriving DecidableEq

/-- Lookup of the order of a commit in a scanned branch order map. -/
def lookupOrder (testing : List (String × Nat)) (c : String) : Option Nat :=
  (testing.find? (fun x => x.1 == c)).map (·.2)

/-- The current order of the stored PackageTesting row of a package
(src/db/abbs.rs lines 406-413): the testing order of its stored commit,
100000 when the row is absent or its commit is not in the order map. -/
def testing_db_order (table : List PackageTestingRow)
    (testing : List (String × Nat)) (tree branch pkg : String) : Nat :=
  (((table.find? (fun r => r.package == pkg && r.tree == tree &&
      r.branch == branch)).bind
    (fun cur => lookupOrder testing cur.commit)).getD 100000)

/-- Embedding of one iteration of the package info loop of
update_testing_branch (src/db/abbs.rs lines 403-435): skip when the new
commit has no testing order; upsert the row when new < db_current and
new ≤ last; delete it when new > last and db_current > last; otherwise
leave the table unchanged. -/
def update_testing_info (table : List PackageTestingRow)
    (testing : List (String × Nat)) (last : Nat) (tree branch : String)
    (info : TestingCommitInfo) : List PackageTestingRow :=
  match lookupOrder testing info.commit_id with
  | none => table
  | some new_order =>
    let db_order := testing_db_order table testing tree branch info.pkg_name
    if new_order < db_order ∧ new_order ≤ last then
      upsertBy testingConflict table
        ⟨info.pkg_name, tree, branch, info.pkg_version, info.spec_path,
          info.defines_path, info.commit_id⟩
    else if new_order > last ∧ db_order > last then
      table.filter (fun r => !(r.package == info.pkg_name &&
        r.tree == tree && r.branch == branch))
    else table

/-! ### Upsert membership lemmas -/

theorem mem_upsertBy {α : Type} (conflict : α → α → Bool) (tbl : List α)
    (r x : α) :
    x ∈ upsertBy conflict tbl r ↔
      x = r ∨ (x ∈ tbl ∧ conflict x r = false) := by
  unfold upsertBy
  simp [List.mem_cons, List.mem_filter]

theorem mem_upsertManyBy {α : Type} (conflict : α → α → Bool) :
    ∀ (rows base : List α) (y : α),
      (∀ x ∈ rows, ∀ b ∈ base, conflict b x = false) →
      List.Pairwise (fun a b => conflict a b = false) rows →
      (y ∈ upsertManyBy conflict base rows ↔ y ∈ base ∨ y ∈ rows)
  | [], base, y, _, _ => by simp [upsertManyBy]
  | x :: rest, base, y, h1, h2 => by
    have hbase : base.filter (fun b => !(conflict b x)) = base := by
      apply List.filter_eq_self.mpr
      intro b hb
      simp [h1 x (List.mem_cons_self _ _) b hb]
    have h1b : ∀ z ∈ rest, ∀ b ∈ upsertBy conflict base x,
        conflict b z = false := by
      intro z hz b hb
      unfold upsertBy at hb
      rw [hbase] at hb
      rcases List.mem_cons.mp hb with rfl | hb2
      · exact (List.pairwise_cons.mp h2).1 z hz
      · exact h1 z (List.mem_cons_of_mem _ hz) b hb2
    have IH := mem_upsertManyBy conflict rest (upsertBy conflict base x) y
      h1b (List.pairwise_cons.mp h2).2
    rw [show upsertManyBy conflict base (x :: rest) =
        upsertManyBy conflict (upsertBy conflict base x) rest from rfl, IH]
    unfold upsertBy
    rw [hbase]
    simp [List.mem_cons]
    tauto

/-! ### Claims C10, C5, C2 about add_package -/

/-- C10: For every package meta, add_package called with an empty change
list returns the error before performing any write, and the caller
observes an unchanged database: the transaction is rolled back. -/
theorem add_package_empty_changes (db : AbbsDb) (tree branch : String)
    (meta : Package × Ctx × List PackageError) :
    add_package db tree branch meta [] =
      .error "cannot find changes of package, please update commit database" ∧
    add_package_run db tree branch meta [] = db :=
  ⟨rfl, rfl⟩

/-- C5: For every call of add_package that commits, the PackageSpec rows
of the package afterwards are exactly the (key, value) pairs of the
parsed context supplied in the call, while rows of other packages are
untouched: no stale key survives the update. -/
theorem add_package_rewrites_spec (db : AbbsDb) (tree branch : String)
    (pkg : Package) (ctx : Ctx) (errs : List PackageError)
    (changes : List Change) (db' : AbbsDb)
    (hnodup : (ctx.map Prod.fst).Nodup)
    (hok : add_package db tree branch (pkg, ctx, errs) changes = .ok db') :
    ∀ r : PackageSpecRow, r ∈ db'.package_spec ↔
      ((r.package = pkg.name ∧ (r.key, r.value) ∈ ctx) ∨
       (r ∈ db.package_spec ∧ r.package ≠ pkg.name)) := by
  match changes with
  | [] => exact absurd hok (by simp [add_package])
  | first :: rest =>
    have hdb' : db'.package_spec = upsertManyBy specConflict
        (db.package_spec.filter (fun r => !(r.package == pkg.name)))
        (ctx.map (fun kv => ⟨pkg.name, kv.1, kv.2⟩)) := by
      unfold add_package at hok
      injection hok with hok
      rw [← hok]
    intro r
    have hdisj : ∀ x ∈ ctx.map (fun kv => (⟨pkg.name, kv.1, kv.2⟩ :
        PackageSpecRow)), ∀ b ∈ db.package_spec.filter
        (fun s => !(s.package == pkg.name)), specConflict b x = false := by
      intro y hy b hb
      rw [List.mem_map] at hy
      obtain ⟨kv, _, rfl⟩ := hy
      rw [List.mem_filter] at hb
      have hbne : (b.package == pkg.name) = false := by
        have hb2 := hb.2
        rw [Bool.not_eq_true'] at hb2
        exact hb2
      simp [specConflict, hbne]
    have hpw : List.Pairwise (fun a b => specConflict a b = false)
        (ctx.map (fun kv => (⟨pkg.name, kv.1, kv.2⟩ : PackageSpecRow))) := by
      rw [List.pairwise_map]
      have hp : List.Pairwise (fun a b : String × String => a.1 ≠ b.1) ctx := by
        rw [← List.pairwise_map (f := Prod.fst)]
        exact hnodup
      refine hp.imp ?_
      intro a b hab
      simp [specConflict, hab]
    rw [hdb', mem_upsertManyBy specConflict _ _ r hdisj hpw]
    constructor
    · rintro (hbase | hrow)
      · rw [List.mem_filter] at hbase
        exact Or.inr ⟨hbase.1, by simpa using hbase.2⟩
      · rw [List.mem_map] at hrow
        obtain ⟨kv, hkv, rfl⟩ := hrow
        exact Or.inl ⟨rfl, hkv⟩
    · rintro (⟨hpkg, hkv⟩ | ⟨hmem, hne⟩)
      · right
        rw [List.mem_map]
        obtain ⟨rp, rk, rv⟩ := r
        dsimp at hpkg hkv
        subst hpkg
        exact ⟨(rk, rv), hkv, rfl⟩
      · left
        rw [List.mem_filter]
        exact ⟨hmem, by simpa using hne⟩

/-- The parsed context used in the C5 witness. -/
def ctxW : Ctx := [("K", "V"), ("L", "W")]

/-- The change row used in the add_package witnesses. -/
def changeW : Change :=
  ⟨"jade", "1.2", "stable", "medium", "msg", "deadbeef", "Ann",
    "ann@example.org", 100, "t"⟩

/-- A stale PackageSpec row of the package being updated. -/
def staleSpecRow : PackageSpecRow := ⟨"jade", "OLD", "1"⟩

/-- A PackageSpec row of an unrelated package. -/
def otherSpecRow : PackageSpecRow := ⟨"other", "K", "x"⟩

/-- The database of the C5 witness. -/
def dbW : AbbsDb := { emptyDb with package_spec := [staleSpecRow, otherSpecRow] }

/-- The database after the C5 witness update. -/
def dbWout : AbbsDb :=
  add_package_run dbW "t" "stable" (samplePackage, ctxW, []) [changeW]

/-- Witness for C5: after the update the stale key row of the package is
gone. -/
theorem add_package_rewrites_spec_witness :
    (ctxW.map Prod.fst).Nodup ∧
    add_package dbW "t" "stable" (samplePackage, ctxW, []) [changeW] =
      .ok dbWout ∧
    (staleSpecRow ∈ dbWout.package_spec ↔
      ((staleSpecRow.package = samplePackage.name ∧
        (staleSpecRow.key, staleSpecRow.value) ∈ ctxW) ∨
       (staleSpecRow ∈ dbW.package_spec ∧
        staleSpecRow.package ≠ samplePackage.name))) :=
  ⟨by decide, rfl,
    add_package_rewrites_spec dbW "t" "stable" samplePackage ctxW [] [changeW]
      dbWout (by decide) rfl staleSpecRow⟩

/-- A previously stored PackageError row of the package. -/
def staleErrRow : PackageErrorRow :=
  ⟨1, "jade", "extra-doc/jade", "stale", "package", "t", "stable", none, none⟩

/-- A newly supplied parse error of the package. -/
def newPkgErr : PackageError :=
  ⟨"jade", "extra-doc/jade/spec", "boom", .parse, some 3, some 5⟩

/-- The database of the C2 refutation. -/
def dbE : AbbsDb := { emptyDb with package_errors := [staleErrRow] }

/-- C2 refutation: add_package never deletes prior PackageError rows of
the package; it only inserts the newly supplied errors with fresh
auto-increment ids (src/db/abbs.rs lines 299-313 hold no delete, unlike
the sibling PackageSpec and PackageDependencies steps).  After a
committing update supplying one new error, the stale row is still
present next to the new one. -/
theorem add_package_keeps_stale_errors :
    (add_package_run dbE "t" "stable" (samplePackage, [], [newPkgErr])
        [changeW]).package_errors =
      [staleErrRow,
        ⟨2, "jade", "extra-doc/jade/spec", "boom", "parse", "t", "stable",
          some 3, some 5⟩] ∧
    staleErrRow ∈ (add_package_run dbE "t" "stable"
        (samplePackage, [], [newPkgErr]) [changeW]).package_errors :=
  ⟨rfl, by decide⟩

/-! ### Claim C1 about the history window of get_updated_packages -/

/-- The older history row. -/
def histOld : HistoryRow := ⟨1, "t", "stable", "oldcommit", 100⟩

/-- A middle history row. -/
def histMid : HistoryRow := ⟨2, "t", "stable", "midcommit", 150⟩

/-- The newest history row. -/
def histNew : HistoryRow := ⟨3, "t", "stable", "newcommit", 200⟩

/-- C1 refutation: get_branch_histories orders rows by timestamp
ascending, so rows 0 and 1 taken by get_updated_packages are the two
oldest.  With two rows the window comes out as (from = newest,
to = oldest), the reverse of the claimed (from = second newest,
to = newest); with three rows the newest tip is not selected at all.
The fatal error with no rows does hold. -/
theorem updated_packages_window_picks_oldest :
    updated_packages_window [histNew, histOld] "t" "stable" =
      .ok (some "newcommit", "oldcommit") ∧
    ((some "newcommit", "oldcommit") ≠
      ((some "oldcommit", "newcommit") : Option String × String)) ∧
    updated_packages_window [histNew, histMid, histOld] "t" "stable" =
      .ok (some "midcommit", "oldcommit") ∧
    updated_packages_window [] "t" "stable" =
      .error ("please update branch " ++ "stable") :=
  ⟨rfl, by decide, rfl, rfl⟩

/-! ### Claim C3 about the testing view decision -/

theorem testingConflict_false_iff (x : PackageTestingRow)
    (p tr br : String) :
    ((x.package == p && x.tree == tr && x.branch == br) = false) ↔
      ¬(x.package = p ∧ x.tree = tr ∧ x.branch = br) := by
  rw [← Bool.not_eq_true]
  exact not_congr (by simp [Bool.and_eq_true, beq_iff_eq, and_assoc])

theorem testingConflict_row_false_iff (x : PackageTestingRow)
    (p tr br v sp dp c : String) :
    (testingConflict x ⟨p, tr, br, v, sp, dp, c⟩ = false) ↔
      ¬(x.package = p ∧ x.tree = tr ∧ x.branch = br) := by
  unfold testingConflict
  exact testingConflict_false_iff x p tr br

theorem testingFilter_true_iff (x : PackageTestingRow) (p tr br : String) :
    ((!(x.package == p && x.tree == tr && x.branch == br)) = true) ↔
      ¬(x.package = p ∧ x.tree = tr ∧ x.branch = br) := by
  rw [Bool.not_eq_true']
  exact testingConflict_false_iff x p tr br

/-- C3: In update_testing_branch, for every package info whose new
commit has a known testing order, the PackageTesting row is upserted
when new < db_current and new ≤ last, deleted when new > last and
db_current > last, and the table left unchanged otherwise, where
db_current defaults to 100000 when the package row is absent or its
stored commit has no testing order. -/
theorem update_testing_info_characterization
    (table : List PackageTestingRow) (testing : List (String × Nat))
    (last : Nat) (tree branch : String) (info : TestingCommitInfo)
    (new_order : Nat)
    (hnew : lookupOrder testing info.commit_id = some new_order) :
    (new_order < testing_db_order table testing tree branch info.pkg_name ∧
        new_order ≤ last →
      ∀ r, r ∈ update_testing_info table testing last tree branch info ↔
        (r = ⟨info.pkg_name, tree, branch, info.pkg_version, info.spec_path,
            info.defines_path, info.commit_id⟩ ∨
         (r ∈ table ∧ ¬(r.package = info.pkg_name ∧ r.tree = tree ∧
            r.branch = branch)))) ∧
    (new_order > last ∧
        testing_db_order table testing tree branch info.pkg_name > last →
      ∀ r, r ∈ update_testing_info table testing last tree branch info ↔
        (r ∈ table ∧ ¬(r.package = info.pkg_name ∧ r.tree = tree ∧
          r.branch = branch))) ∧
    (¬(new_order < testing_db_order table testing tree branch info.pkg_name ∧
        new_order ≤ last) →
     ¬(new_order > last ∧
        testing_db_order table testing tree branch info.pkg_name > last) →
      update_testing_info table testing last tree branch info = table) := by
  refine ⟨?_, ?_, ?_⟩
  · intro hc r
    simp only [update_testing_info, hnew]
    rw [if_pos hc, mem_upsertBy]
    constructor
    · rintro (rfl | ⟨hmem, hconf⟩)
      · exact Or.inl rfl
      · exact Or.inr ⟨hmem,
          (testingConflict_row_false_iff r _ _ _ _ _ _ _).mp hconf⟩
    · rintro (rfl | ⟨hmem, hne⟩)
      · exact Or.inl rfl
      · exact Or.inr ⟨hmem,
          (testingConflict_row_false_iff r _ _ _ _ _ _ _).mpr hne⟩
  · intro hc r
    have hnot1 : ¬(new_order <
        testing_db_order table testing tree branch info.pkg_name ∧
        new_order ≤ last) := by
      rintro ⟨_, h2⟩
      omega
    simp only [update_testing_info, hnew]
    rw [if_neg hnot1, if_pos hc, List.mem_filter]
    constructor
    · rintro ⟨hmem, hcond⟩
      exact ⟨hmem, (testingFilter_true_iff r _ _ _).mp hcond⟩
    · rintro ⟨hmem, hne⟩
      exact ⟨hmem, (testingFilter_true_iff r _ _ _).mpr hne⟩
  · intro h1 h2
    simp only [update_testing_info, hnew]
    rw [if_neg h1, if_neg h2]

/-- The testing order map of the C3 witness. -/
def testW : List (String × Nat) := [("c1", 0), ("c0", 1)]

/-- The package info of the C3 witness. -/
def infoW : TestingCommitInfo :=
  ⟨"c1", 0, "jade", "1.3", "extra-doc/jade/autobuild/defines",
    "extra-doc/jade/spec"⟩

/-- The row the C3 witness upserts. -/
def newRowW : PackageTestingRow :=
  ⟨"jade", "t", "tb", "1.3", "extra-doc/jade/spec",
    "extra-doc/jade/autobuild/defines", "c1"⟩

/-- Witness for C3: with an absent database row (db_current 100000), a
new order 0 and last 0, the row is upserted. -/
theorem update_testing_info_characterization_witness :
    lookupOrder testW "c1" = some 0 ∧
    (0 < testing_db_order [] testW "t" "tb" "jade" ∧ 0 ≤ 0) ∧
    (newRowW ∈ update_testing_info [] testW 0 "t" "tb" infoW ↔
      (newRowW = ⟨"jade", "t", "tb", "1.3", "extra-doc/jade/spec",
          "extra-doc/jade/autobuild/defines", "c1"⟩ ∨
       (newRowW ∈ ([] : List PackageTestingRow) ∧
        ¬(newRowW.package = "jade" ∧ newRowW.tree = "t" ∧
          newRowW.branch = "tb")))) :=
  ⟨rfl, by decide,
    (update_testing_info_characterization [] testW 0 "t" "tb" infoW 0
      rfl).1 (by decide) newRowW⟩

end AbbsMeta
